import Mathlib

/-!
# Topology-Aware Placement & Decommission Migration Engine — verification

Shallow embedding of the storage-orchestration layer of the vSphere CSI
driver excerpt: the gRPC service contract declared in the
`k8scloudoperator` proto file, the spec's Placement Engine / Migration
Planner / Zone Lifecycle Tracker, and the driver bootstrap in
`cmd/vsphere-csi/main.go`.

The placement and migration algorithms themselves are not part of the
excerpted sources (only their proto service declaration is), so those
definitions are modelled from the specification's component design; the
proto doc comments and `main.go` are embedded directly from the source.
-/

namespace CsiPlacement

abbrev PoolID := String
abbrev DomainID := String
abbrev ClaimID := String

/-- Maintenance-mode / decommission policy, proto `maintenance_mode` values
`"ensureAccessibility"` and `"evacuateAll"`. -/
inductive RemovalPolicy
  | ensureAccessibility
  | evacuateAll
deriving DecidableEq, Repr

/-- Modelled from the spec: lifecycle state of a topology domain (zone):
Active, MarkedForRemoval(policy), Removed. -/
inductive DomainState
  | active
  | markedForRemoval (policy : RemovalPolicy)
  | removed
deriving DecidableEq, Repr

/-- Modelled from the spec: a storage pool with identifier, parent topology
domain, total capacity, used capacity, accessibility flag and tags. -/
structure StoragePool where
  id : PoolID
  domain : DomainID
  capacity : Nat
  used : Nat
  accessible : Bool
  tags : List String
deriving DecidableEq, Repr

/-- Modelled from the spec: a volume visible to the Migration Planner — its
identifier, declared size, the pool its PlacementRecord currently names,
whether an alternate accessible copy exists (redundancy), and the original
topology requirement of its claim (`none` = unconstrained, `some ds` = the
destination domain must be one of `ds`). -/
structure VolumeInfo where
  id : String
  size : Nat
  currentPool : PoolID
  hasAlternateCopy : Bool
  reqDomains : Option (List DomainID)
deriving DecidableEq, Repr

/-- Modelled from the spec: the Inventory Snapshot Provider's read-only view
plus the Zone Lifecycle Tracker state: pools, domain lifecycle states
(absent entry = Active), and the volumes with their placement. -/
structure Inventory where
  pools : List StoragePool
  domains : List (DomainID × DomainState)
  volumes : List VolumeInfo
deriving DecidableEq, Repr

def domainStateOf (doms : List (DomainID × DomainState)) (d : DomainID) : DomainState :=
  (doms.lookup d).getD .active

/-- Lexicographic order on character lists by code point. -/
def charListLt : List Char → List Char → Bool
  | [], [] => false
  | [], _ :: _ => true
  | _ :: _, [] => false
  | a :: as, b :: bs =>
      if a.toNat < b.toNat then true
      else if b.toNat < a.toNat then false
      else charListLt as bs

/-- Lexicographic order on identifiers, used for deterministic tie-breaks. -/
def strLt (a b : String) : Bool := charListLt a.data b.data

def freeCap (p : StoragePool) : Nat := p.capacity - p.used

/-- The pool identifiers belonging to a topology domain. -/
def domainPools (inv : Inventory) (d : DomainID) : List PoolID :=
  (inv.pools.filter (fun p => p.domain == d)).map (·.id)

/-- Modelled from the spec: the Migration Planner enumerates volumes
currently placed on the pools being decommissioned; under
`EnsureAccessibility` it keeps only volumes lacking an alternate accessible
copy, under `EvacuateAll` it keeps every volume. -/
def enumVolumes (inv : Inventory) (srcPools : List PoolID) (policy : RemovalPolicy) :
    List VolumeInfo :=
  inv.volumes.filter (fun v =>
    srcPools.contains v.currentPool &&
      (policy == .evacuateAll || !v.hasAlternateCopy))

/-- Stable insertion into a list sorted by size, descending. -/
def insertDescBySize (v : VolumeInfo) : List VolumeInfo → List VolumeInfo
  | [] => [v]
  | w :: ws => if w.size < v.size then v :: w :: ws else w :: insertDescBySize v ws

/-- Modelled from the spec: sort volumes descending by declared size
(stable, so equal sizes keep inventory order). -/
def sortDescBySize (vs : List VolumeInfo) : List VolumeInfo :=
  vs.foldr insertDescBySize []

/-- Modelled from the spec: a pool is a candidate destination for a volume
when it is not the volume's current pool, is accessible, is not in a
Removed domain, satisfies the claim's original topology requirement, and
has free capacity at least the volume's declared size. -/
def candidateDest (doms : List (DomainID × DomainState)) (v : VolumeInfo)
    (p : StoragePool) : Bool :=
  p.id != v.currentPool && p.accessible &&
    !(domainStateOf doms p.domain == .removed) &&
    (match v.reqDomains with
     | none => true
     | some ds => ds.contains p.domain) &&
    decide (v.size ≤ freeCap p)

/-- Best-fit choice between a candidate found so far and the next pool:
keep the one with the smaller remaining free capacity, breaking ties by
pool identifier for determinism. -/
def pickBestFit (best : Option StoragePool) (p : StoragePool) : Option StoragePool :=
  match best with
  | none => some p
  | some b =>
      if freeCap p < freeCap b || (freeCap p == freeCap b && strLt p.id b.id) then
        some p
      else some b

/-- Modelled from the spec: among candidate destinations, pick the pool with
the smallest sufficient remaining capacity (best fit). -/
def bestFit (doms : List (DomainID × DomainState)) (pools : List StoragePool)
    (v : VolumeInfo) : Option StoragePool :=
  (pools.filter (candidateDest doms v)).foldl pickBestFit none

/-- Bump a pool's virtual used capacity inside the planning pass. -/
def bumpUsed (pools : List StoragePool) (pid : PoolID) (sz : Nat) : List StoragePool :=
  pools.map (fun p => if p.id == pid then { p with used := p.used + sz } else p)

inductive PlanStatus
  | complete
  | capacityExhausted
deriving DecidableEq, Repr

/-- Accumulator of the planning pass: the pools with their virtual usage,
the assignments made so far (in processing order), and whether some volume
could not be assigned. -/
structure PlanAcc where
  pools : List StoragePool
  mapping : List (String × PoolID)
  exhausted : Bool
deriving DecidableEq, Repr

/-- Assign one volume: best-fit destination, virtual capacity decrement;
a volume with no sufficient destination marks the plan exhausted. -/
def assignVolume (doms : List (DomainID × DomainState)) (acc : PlanAcc)
    (v : VolumeInfo) : PlanAcc :=
  match bestFit doms acc.pools v with
  | none => { acc with exhausted := true }
  | some p =>
      { pools := bumpUsed acc.pools p.id v.size
        mapping := acc.mapping ++ [(v.id, p.id)]
        exhausted := acc.exhausted }

/-- A migration plan: volume → destination pool mapping plus overall status. -/
structure MigrationPlan where
  mapping : List (String × PoolID)
  status : PlanStatus
deriving DecidableEq, Repr

/-- The planning pass over the `k` first sorted volumes (used to observe the
virtual capacity ledger mid-pass). -/
def planAccAfter (inv : Inventory) (srcPools : List PoolID) (policy : RemovalPolicy)
    (k : Nat) : PlanAcc :=
  ((sortDescBySize (enumVolumes inv srcPools policy)).take k).foldl
    (assignVolume inv.domains) ⟨inv.pools, [], false⟩

/-- Modelled from the spec: the Migration Planner. Enumerate the affected
volumes, sort descending by size, and greedily best-fit assign each with
virtual capacity decrements; status is `capacityExhausted` when some volume
had no sufficient destination, otherwise `complete`. -/
def computePlan (inv : Inventory) (srcPools : List PoolID) (policy : RemovalPolicy) :
    MigrationPlan :=
  let final :=
    (sortDescBySize (enumVolumes inv srcPools policy)).foldl
      (assignVolume inv.domains) ⟨inv.pools, [], false⟩
  ⟨final.mapping, if final.exhausted then .capacityExhausted else .complete⟩

/-- The virtual used capacity of pool `pid` in a planning accumulator. -/
def virtualUsed (acc : PlanAcc) (pid : PoolID) : Nat :=
  ((acc.pools.filter (fun p => p.id == pid)).map (·.used)).sum

/-- Modelled from the spec: the volumes a domain-level `Plan` call
enumerates, using the policy stored by the Zone Lifecycle Tracker; a domain
not marked for removal yields no volumes to migrate. -/
def planVolumesForDomain (inv : Inventory) (d : DomainID) : List VolumeInfo :=
  match domainStateOf inv.domains d with
  | .markedForRemoval pol => enumVolumes inv (domainPools inv d) pol
  | _ => []

/-- Modelled from the spec: domain-level `Plan`, defined for a domain marked
for removal, using the tracker's stored policy. -/
def planForDomain (inv : Inventory) (d : DomainID) : Option MigrationPlan :=
  match domainStateOf inv.domains d with
  | .markedForRemoval pol => some (computePlan inv (domainPools inv d) pol)
  | _ => none

/-- Modelled from the spec: join of removal policies on re-marking — the
policy upgrades from EnsureAccessibility to EvacuateAll, never the reverse. -/
def joinPolicy : RemovalPolicy → RemovalPolicy → RemovalPolicy
  | .evacuateAll, _ => .evacuateAll
  | _, .evacuateAll => .evacuateAll
  | _, _ => .ensureAccessibility

/-- Modelled from the spec: the Zone Lifecycle Tracker transition on a
mark-for-removal request: Active moves to MarkedForRemoval(policy), an
already-marked domain joins policies (upgrade only), Removed is terminal. -/
def markTransition : DomainState → RemovalPolicy → DomainState
  | .active, pol => .markedForRemoval pol
  | .markedForRemoval q, pol => .markedForRemoval (joinPolicy q pol)
  | .removed, _ => .removed

/-- Record a domain's new lifecycle state in the tracker. -/
def setDomainState (inv : Inventory) (d : DomainID) (s : DomainState) : Inventory :=
  { inv with domains := (d, s) :: inv.domains.filter (fun e => e.1 != d) }

/-- Mark a domain for removal under a policy. -/
def markDomain (inv : Inventory) (d : DomainID) (pol : RemovalPolicy) : Inventory :=
  setDomainState inv d (markTransition (domainStateOf inv.domains d) pol)

/-- Parse the proto `maintenance_mode` string. -/
def parseMaintenanceMode : String → Option RemovalPolicy
  | "ensureAccessibility" => some .ensureAccessibility
  | "evacuateAll" => some .evacuateAll
  | _ => none

/-- The `GetStorageVMotionPlan` RPC, following its proto doc comment:
either all the PSP PVs are mapped to a corresponding datastore and the
storage vMotion plan is returned with no error, or some (or all) of the PVs
cannot be mapped and an error is returned with a nil plan. -/
def getStorageVMotionPlan (inv : Inventory) (storagePoolName : String)
    (maintenanceMode : String) : Except String (List (String × PoolID)) :=
  match parseMaintenanceMode maintenanceMode with
  | none => .error "invalid maintenance mode"
  | some pol =>
      let plan := computePlan inv [storagePoolName] pol
      if plan.status == .complete then .ok plan.mapping
      else .error "some PSP PVs cannot be mapped to a datastore"

/-! ## Placement Engine

Modelled from the spec's §4.1 contract
`Place(claimID, profile, topologyRequirement)` and the
`PlacePersistenceVolumeClaim` proto doc comment. The engine's capacity
ledger is the set of PlacementRecords it owns, on top of the inventory's
reported base usage. -/

/-- Modelled from the spec: a storage profile — whether it requires
pool-level placement at all, and the tags an eligible pool must carry. -/
structure StorageProfile where
  requiresPoolPlacement : Bool
  eligibleTags : List String
deriving DecidableEq, Repr

/-- A placement request: claim identity, profile, declared size, and the
topology accessibility requirement (`none` = unconstrained, `some ds` =
the chosen domain must be one of the alternative domain values `ds`). -/
structure PlacementRequest where
  claim : ClaimID
  profile : StorageProfile
  size : Nat
  topology : Option (List DomainID)
deriving DecidableEq, Repr

/-- Modelled from the spec: (claim identity) → (chosen pool, chosen domain),
carrying the claim's declared size for the capacity ledger. -/
structure PlacementRecord where
  claim : ClaimID
  size : Nat
  pool : PoolID
  domain : DomainID
deriving DecidableEq, Repr

/-- Result of `Place`: no placement required, a chosen (pool, domain), or
the Infeasible error. -/
inductive PlaceResult
  | noOpRequired
  | placed (pool : PoolID) (domain : DomainID)
  | infeasible
deriving DecidableEq, Repr

/-- The engine's state: the inventory snapshot (pools, domain lifecycle
states) and the PlacementRecords the engine owns. -/
structure EngineState where
  pools : List StoragePool
  domains : List (DomainID × DomainState)
  records : List PlacementRecord
deriving DecidableEq, Repr

/-- Contribution of one record to the load of pool `pid`. -/
def recContrib (pid : PoolID) (r : PlacementRecord) : Nat :=
  if r.pool == pid then r.size else 0

/-- Sum of declared sizes of the volumes whose PlacementRecord references
pool `pid`. -/
def poolLoad (recs : List PlacementRecord) (pid : PoolID) : Nat :=
  (recs.map (recContrib pid)).sum

/-- Contribution of one record to the total size held by claim `c`. -/
def claimContrib (c : ClaimID) (r : PlacementRecord) : Nat :=
  if r.claim == c then r.size else 0

/-- Total declared size recorded for claim `c`. -/
def claimLoad (recs : List PlacementRecord) (c : ClaimID) : Nat :=
  (recs.map (claimContrib c)).sum

/-- A pool's usage in the shared virtual capacity ledger: the inventory's
reported base usage plus the engine's own recorded placements. -/
def ledgerUsed (st : EngineState) (p : StoragePool) : Nat :=
  p.used + poolLoad st.records p.id

/-- Modelled from the spec: a pool is eligible for a placement request when
it carries the profile's eligible tags, lies in a domain satisfying the
topology requirement, its domain is Active (MarkedForRemoval and Removed
domains are excluded from placement), it is accessible, and its free
capacity covers the requested size. -/
def eligiblePool (st : EngineState) (req : PlacementRequest) (p : StoragePool) : Bool :=
  req.profile.eligibleTags.all (fun t => p.tags.contains t) &&
    (match req.topology with
     | none => true
     | some ds => ds.contains p.domain) &&
    (domainStateOf st.domains p.domain == .active) &&
    p.accessible &&
    decide (ledgerUsed st p + req.size ≤ p.capacity)

/-- Least-loaded-first comparison: lower used/total ratio wins, ties broken
by pool identifier for determinism (ratios compared by cross-multiplying). -/
def lessLoaded (st : EngineState) (p q : StoragePool) : Bool :=
  ledgerUsed st p * q.capacity < ledgerUsed st q * p.capacity ||
    (ledgerUsed st p * q.capacity == ledgerUsed st q * p.capacity &&
      strLt p.id q.id)

/-- Fold step keeping the least-loaded pool seen so far. -/
def pickLeastLoaded (st : EngineState) (best : Option StoragePool)
    (p : StoragePool) : Option StoragePool :=
  match best with
  | none => some p
  | some b => if lessLoaded st p b then some p else some b

/-- Modelled from the spec: among eligible pools, selection is
least-loaded-first with ties broken by pool identifier. -/
def selectPool (st : EngineState) (req : PlacementRequest) : Option StoragePool :=
  (st.pools.filter (eligiblePool st req)).foldl (pickLeastLoaded st) none

/-- Modelled from the spec and the `PlacePersistenceVolumeClaim` proto doc:
`Place` is a no-op success when the profile does not require pool-level
placement; idempotently returns the existing pool when the claim already
has a PlacementRecord; otherwise selects an eligible pool and writes a
PlacementRecord, or fails with Infeasible when no pool is eligible. -/
def place (st : EngineState) (req : PlacementRequest) : PlaceResult × EngineState :=
  if req.profile.requiresPoolPlacement = false then
    (.noOpRequired, st)
  else
    match st.records.find? (fun r => r.claim == req.claim) with
    | some r => (.placed r.pool r.domain, st)
    | none =>
        match selectPool st req with
        | none => (.infeasible, st)
        | some p =>
            (.placed p.id p.domain,
             { st with records := ⟨req.claim, req.size, p.id, p.domain⟩ :: st.records })

/-- The proto `placeSuccess` boolean derived from a `Place` result. -/
def placeSuccessOf : PlaceResult → Bool
  | .infeasible => false
  | _ => true

/-- The `PlacePersistenceVolumeClaim` RPC: runs `place` and reports the
proto `placeSuccess` flag. -/
def placePersistenceVolumeClaim (st : EngineState) (req : PlacementRequest) :
    Bool × EngineState :=
  let r := place st req
  (placeSuccessOf r.1, r.2)

/-- Rewrite one PlacementRecord during a migration apply: the records of
claim `c` move to pool `dest` in domain `ddom`, all others are untouched. -/
def moveRec (c : ClaimID) (dest : PoolID) (ddom : DomainID) (r : PlacementRecord) :
    PlacementRecord :=
  if r.claim == c then { r with pool := dest, domain := ddom } else r

/-- Modelled from the spec: a caller applying one migration-plan entry
updates the claim's PlacementRecord to the destination pool; the move
consults the shared capacity ledger and is a no-op unless the destination
exists, is not in a Removed domain, and has room for the claim's volumes. -/
def applyMove (st : EngineState) (c : ClaimID) (dest : PoolID) : EngineState :=
  match st.pools.find? (fun p => p.id == dest) with
  | none => st
  | some dp =>
      if domainStateOf st.domains dp.domain == .removed then st
      else if dp.used + poolLoad st.records dest + claimLoad st.records c ≤ dp.capacity then
        { st with records := st.records.map (moveRec c dest dp.domain) }
      else st

/-- An operation of the engine's sequential history: a placement request or
the application of one migration-plan entry. -/
inductive EngineOp
  | placeOp (req : PlacementRequest)
  | applyMoveOp (c : ClaimID) (dest : PoolID)
deriving DecidableEq, Repr

def execOp (st : EngineState) : EngineOp → EngineState
  | .placeOp req => (place st req).2
  | .applyMoveOp c dest => applyMove st c dest

def execOps (st : EngineState) (ops : List EngineOp) : EngineState :=
  ops.foldl execOp st

/-- The capacity invariant: every pool's ledger usage (inventory base plus
recorded placements) is within its total capacity. -/
def CapacityInv (st : EngineState) : Prop :=
  ∀ p ∈ st.pools, ledgerUsed st p ≤ p.capacity

/-- Well-formedness: pool identifiers are unique in the inventory. -/
def PoolIdsNodup (st : EngineState) : Prop :=
  (st.pools.map (·.id)).Nodup

end CsiPlacement

namespace MainProcess

/-! ## Driver bootstrap, `cmd/vsphere-csi/main.go`

A trace model of the bootstrap sequence, the SIGTERM handler goroutine and
the deferred panic recovery: each code path is embedded as the ordered list
of observable events it performs. -/

/-- Observable events of the bootstrap and teardown code paths. -/
inductive Event
  | printVersion
  | logInfo
  | logError
  | setInitParams (flavor : String)
  | logoutAllvCenterSessions
  | installRecoverAndSignalHandler
  | newDriver
  | driverRun
  | exitProcess (code : Nat)
deriving DecidableEq, Repr

/-- The signals the handler goroutine can receive; it is registered for
SIGTERM only. -/
inductive Signal
  | sigterm
  | other
deriving DecidableEq, Repr

/-- `cleanupSessions` (main.go lines 113-119): log the panic, log the
recovery, log out all vCenter sessions, exit 0. -/
def cleanupSessionsTrace : List Event :=
  [.logError, .logInfo, .logoutAllvCenterSessions, .exitProcess 0]

/-- The deferred function installed in `main` (lines 88-93): on a recovered
panic it logs and runs `cleanupSessions`; with no panic it does nothing. -/
def deferredRecoverTrace (panicked : Bool) : List Event :=
  if panicked then .logInfo :: cleanupSessionsTrace else []

/-- One iteration of the signal-handler goroutine (lines 97-106): on
SIGTERM it logs, logs out all vCenter sessions and exits 0; any other
signal is ignored. -/
def sigtermHandlerTrace : Signal → List Event
  | .sigterm => [.logInfo, .logoutAllvCenterSessions, .exitProcess 0]
  | .other => []

/-- `true` when the trace performs no `exitProcess` before its first
`logoutAllvCenterSessions`. -/
def logoutBeforeExit : List Event → Bool
  | [] => true
  | .logoutAllvCenterSessions :: _ => true
  | .exitProcess _ :: _ => false
  | _ :: rest => logoutBeforeExit rest

/-- Inputs that determine `main`'s bootstrap trace: the `-version` flag,
the outcome of `csiconfig.GetClusterFlavor` (a flavor value together with
an optional error — Go returns both), and the CSI endpoint environment
variable. -/
structure BootstrapInput where
  printVersionFlag : Bool
  clusterFlavor : String
  flavorErr : Option String
  csiEndpoint : String
deriving DecidableEq, Repr

/-- The bootstrap sequence of `main` (lines 50-111): print version and
return when requested; log the version; log (only) a cluster-flavor
retrieval error and continue; call `commonco.SetInitParams` with the
returned flavor; exit 1 when the CSI endpoint is empty; otherwise install
the deferred recover and signal handler, create the driver and run it. -/
def mainTrace (inp : BootstrapInput) : List Event :=
  if inp.printVersionFlag then [.printVersion]
  else
    [.logInfo] ++
      (match inp.flavorErr with
       | some _ => [.logError]
       | none => []) ++
      [.setInitParams inp.clusterFlavor] ++
      (if inp.csiEndpoint = "" then [.logError, .exitProcess 1]
       else [.logInfo, .installRecoverAndSignalHandler, .newDriver, .driverRun])

end MainProcess

namespace CsiPlacement

/-! ## Concrete fixtures used by scenarios, counterexamples and witnesses -/

/-- Spec §8 scenario: domain Z with pools P1 (80/100 used) and P2 (10/100
used), marked for removal with EnsureAccessibility; three volumes of sizes
20, 15, 5 placed in P1, all lacking an alternate accessible copy. -/
def scenarioZInv : Inventory :=
  ⟨[⟨"P1", "Z", 100, 80, true, []⟩, ⟨"P2", "Z", 100, 10, true, []⟩],
   [("Z", .markedForRemoval .ensureAccessibility)],
   [⟨"v20", 20, "P1", false, none⟩, ⟨"v15", 15, "P1", false, none⟩,
    ⟨"v5", 5, "P1", false, none⟩]⟩

/-- An inventory where decommissioning pool S can satisfy only one of its
two volumes: the sole destination D has 20 free, and S holds volumes of
sizes 50 and 10. -/
def partialInv : Inventory :=
  ⟨[⟨"S", "D1", 100, 60, true, []⟩, ⟨"D", "D1", 100, 80, true, []⟩],
   [],
   [⟨"w1", 50, "S", false, none⟩, ⟨"w2", 10, "S", false, none⟩]⟩

/-- Engine state for the spec's Infeasible scenario: the only pool is in
zone z3 with 95/100 used, so a request for 10 units in z3 has no eligible
pool. -/
def z3State : EngineState :=
  ⟨[⟨"pz3", "z3", 100, 95, true, ["ssd"]⟩], [], []⟩

/-- The request of the Infeasible scenario: 10 units, profile tag "ssd",
topology restricted to zone z3. -/
def z3Request : PlacementRequest :=
  ⟨"claimA", ⟨true, ["ssd"]⟩, 10, some ["z3"]⟩

/-- A one-pool engine state with ample capacity. -/
def simpleState : EngineState :=
  ⟨[⟨"p1", "z1", 100, 0, true, []⟩], [], []⟩

/-- A placement request for 10 units with no topology constraint. -/
def simpleRequest : PlacementRequest :=
  ⟨"c1", ⟨true, []⟩, 10, none⟩

/-! ## C1 — GetStorageVMotionPlan on partial capacity exhaustion -/

/-- C1 counterexample: on `partialInv`, volume w1 has no destination with
sufficient capacity while w2 is assignable; the internal planning pass
computes the satisfiable mapping [(w2, D)] with status capacityExhausted,
but the `GetStorageVMotionPlan` RPC (per its proto contract) returns an
error with no plan — the satisfiable portion is discarded, refuting the
claimed partial-success return. -/
theorem getStorageVMotionPlan_partial_cex :
    getStorageVMotionPlan partialInv "S" "ensureAccessibility" =
      .error "some PSP PVs cannot be mapped to a datastore" ∧
    (computePlan partialInv ["S"] .ensureAccessibility).status = .capacityExhausted ∧
    (computePlan partialInv ["S"] .ensureAccessibility).mapping = [("w2", "D")] :=
  ⟨rfl, rfl, rfl⟩

/-- C1 amended: whenever the computed plan's status is capacityExhausted
(some volume has no destination with sufficient capacity), the
`GetStorageVMotionPlan` RPC returns an error and no plan; the internally
computed mapping for satisfiable volumes is not returned to the caller. -/
theorem getStorageVMotionPlan_error_on_exhaustion (inv : Inventory) (src : String)
    (mode : String) (pol : RemovalPolicy)
    (hmode : parseMaintenanceMode mode = some pol)
    (hst : (computePlan inv [src] pol).status = .capacityExhausted) :
    getStorageVMotionPlan inv src mode =
      .error "some PSP PVs cannot be mapped to a datastore" := by
  simp [getStorageVMotionPlan, hmode, hst]

/-- C1 amended, witness at `partialInv`. -/
theorem getStorageVMotionPlan_error_on_exhaustion_witness :
    getStorageVMotionPlan partialInv "S" "ensureAccessibility" =
      .error "some PSP PVs cannot be mapped to a datastore" :=
  getStorageVMotionPlan_error_on_exhaustion partialInv "S" "ensureAccessibility"
    .ensureAccessibility rfl rfl

/-! ## C3 — no-op success for profiles not requiring pool placement -/

/-- C3: when the profile does not require pool-level placement, `place`
performs no pool selection, leaves the state (hence the PlacementRecords)
unchanged, returns NoOpRequired immediately, and the RPC reports
placeSuccess = true. -/
theorem place_noop_profile (st : EngineState) (req : PlacementRequest)
    (h : req.profile.requiresPoolPlacement = false) :
    place st req = (.noOpRequired, st) ∧
    placePersistenceVolumeClaim st req = (true, st) := by
  constructor
  · simp [place, h]
  · simp [placePersistenceVolumeClaim, place, h, placeSuccessOf]

/-- C3 witness: a request whose profile needs no pool placement. -/
theorem place_noop_profile_witness :
    place simpleState ⟨"c9", ⟨false, []⟩, 10, none⟩ = (.noOpRequired, simpleState) ∧
    placePersistenceVolumeClaim simpleState ⟨"c9", ⟨false, []⟩, 10, none⟩ =
      (true, simpleState) :=
  place_noop_profile simpleState ⟨"c9", ⟨false, []⟩, 10, none⟩ rfl

/-! ## C5 — greedy best-fit planning, spec §8 scenario -/

/-- C5: on the spec scenario (domain Z marked EnsureAccessibility, pools P1
80/100 and P2 10/100, volumes 20, 15, 5 lacking redundancy), `Plan`
returns status Complete mapping all three volumes to P2 in largest-first
order (20, 15, 5), with P2's virtual usage going 10→30→45→50 across the
planning pass and never exceeding 100. -/
theorem plan_best_fit_scenario :
    planForDomain scenarioZInv "Z" =
      some ⟨[("v20", "P2"), ("v15", "P2"), ("v5", "P2")], .complete⟩ ∧
    (List.range 4).map (fun k =>
        virtualUsed (planAccAfter scenarioZInv (domainPools scenarioZInv "Z")
          .ensureAccessibility k) "P2") = [10, 30, 45, 50] ∧
    ((List.range 4).map (fun k =>
        virtualUsed (planAccAfter scenarioZInv (domainPools scenarioZInv "Z")
          .ensureAccessibility k) "P2")).all (fun u => decide (u ≤ 100)) = true :=
  ⟨rfl, rfl, rfl⟩

/-! ## C9 — capacity is never over-committed -/

theorem sum_map_le_sum_map {α : Type} (l : List α) (f g : α → Nat)
    (h : ∀ a ∈ l, f a ≤ g a) : (l.map f).sum ≤ (l.map g).sum := by
  induction l with
  | nil => simp
  | cons x xs ih =>
      simp only [List.map_cons, List.sum_cons]
      exact Nat.add_le_add (h x (List.mem_cons_self x xs))
        (ih (fun a ha => h a (List.mem_cons_of_mem x ha)))

theorem sum_map_add_split {α : Type} (l : List α) (f g : α → Nat) :
    (l.map (fun a => f a + g a)).sum = (l.map f).sum + (l.map g).sum := by
  induction l with
  | nil => simp
  | cons x xs ih =>
      simp only [List.map_cons, List.sum_cons, ih]
      omega

theorem foldl_pickLeastLoaded_mem (st : EngineState) (l : List StoragePool)
    (acc : Option StoragePool) (p : StoragePool)
    (h : l.foldl (pickLeastLoaded st) acc = some p) :
    acc = some p ∨ p ∈ l := by
  induction l generalizing acc with
  | nil => exact Or.inl h
  | cons x xs ih =>
      rcases ih _ h with hacc | hmem
      · cases acc with
        | none =>
            simp only [pickLeastLoaded] at hacc
            injection hacc with hxp
            exact Or.inr (hxp ▸ List.mem_cons_self x xs)
        | some b =>
            simp only [pickLeastLoaded] at hacc
            by_cases hll : lessLoaded st x b = true
            · rw [if_pos hll] at hacc
              injection hacc with hxp
              exact Or.inr (hxp ▸ List.mem_cons_self x xs)
            · rw [if_neg hll] at hacc
              exact Or.inl hacc
      · exact Or.inr (List.mem_cons_of_mem x hmem)

theorem selectPool_sound (st : EngineState) (req : PlacementRequest) (p : StoragePool)
    (h : selectPool st req = some p) :
    p ∈ st.pools ∧ eligiblePool st req p = true := by
  unfold selectPool at h
  rcases foldl_pickLeastLoaded_mem st _ none p h with hacc | hmem
  · exact absurd hacc (by simp)
  · exact ⟨(List.mem_filter.mp hmem).1, (List.mem_filter.mp hmem).2⟩

theorem eligiblePool_capacity (st : EngineState) (req : PlacementRequest)
    (p : StoragePool) (h : eligiblePool st req p = true) :
    ledgerUsed st p + req.size ≤ p.capacity := by
  unfold eligiblePool at h
  simp only [Bool.and_eq_true, decide_eq_true_eq] at h
  exact h.2

theorem pool_eq_of_id_eq (st : EngineState) (hN : PoolIdsNodup st)
    {p q : StoragePool} (hp : p ∈ st.pools) (hq : q ∈ st.pools)
    (h : p.id = q.id) : p = q :=
  List.inj_on_of_nodup_map hN hp hq h

/-- `place` either leaves the state unchanged or prepends one record for
the selected (eligible) pool. -/
theorem place_state_cases (st : EngineState) (req : PlacementRequest) :
    (place st req).2 = st ∨
    ∃ p, selectPool st req = some p ∧
      (place st req).2 =
        { st with records := ⟨req.claim, req.size, p.id, p.domain⟩ :: st.records } := by
  rw [place]
  split
  · exact Or.inl rfl
  · split
    · exact Or.inl rfl
    · cases hsel : selectPool st req with
      | none => exact Or.inl rfl
      | some p => exact Or.inr ⟨p, rfl, rfl⟩

/-- `applyMove` either leaves the state unchanged or rewrites the claim's
records to a destination pool whose guarded ledger capacity suffices. -/
theorem applyMove_state_cases (st : EngineState) (c : ClaimID) (dest : PoolID) :
    applyMove st c dest = st ∨
    ∃ dp, st.pools.find? (fun p => p.id == dest) = some dp ∧
      dp.used + poolLoad st.records dest + claimLoad st.records c ≤ dp.capacity ∧
      applyMove st c dest =
        { st with records := st.records.map (moveRec c dest dp.domain) } := by
  cases hf : st.pools.find? (fun p => p.id == dest) with
  | none =>
      left
      simp only [applyMove, hf]
  | some dp =>
      by_cases hrem : (domainStateOf st.domains dp.domain == DomainState.removed) = true
      · left
        simp only [applyMove, hf, if_pos hrem]
      · by_cases hguard :
          dp.used + poolLoad st.records dest + claimLoad st.records c ≤ dp.capacity
        · right
          exact ⟨dp, rfl, hguard, by simp only [applyMove, hf, if_neg hrem, if_pos hguard]⟩
        · left
          simp only [applyMove, hf, if_neg hrem, if_neg hguard]

theorem recContrib_moveRec_dest (c : ClaimID) (dest : PoolID) (ddom : DomainID)
    (r : PlacementRecord) :
    recContrib dest (moveRec c dest ddom r) ≤ recContrib dest r + claimContrib c r := by
  cases hc : r.claim == c with
  | true =>
      simp only [moveRec, recContrib, claimContrib, hc, if_true, beq_self_eq_true]
      split <;> omega
  | false =>
      simp [moveRec, recContrib, claimContrib, hc]

theorem recContrib_moveRec_other (c : ClaimID) (dest : PoolID) (ddom : DomainID)
    (pid : PoolID) (r : PlacementRecord) (h : pid ≠ dest) :
    recContrib pid (moveRec c dest ddom r) ≤ recContrib pid r := by
  cases hc : r.claim == c with
  | true =>
      have hdp : (dest == pid) = false := by
        simp only [beq_eq_false_iff_ne, ne_eq]
        exact fun hh => h hh.symm
      simp [moveRec, recContrib, hc, hdp]
  | false =>
      simp [moveRec, recContrib, hc]

theorem capInv_place (st : EngineState) (req : PlacementRequest)
    (hN : PoolIdsNodup st) (hI : CapacityInv st) :
    CapacityInv (place st req).2 := by
  rcases place_state_cases st req with heq | ⟨p, hsel, heq⟩
  · rw [heq]; exact hI
  · rw [heq]
    intro q hq
    have hsound := selectPool_sound st req p hsel
    have hcap := eligiblePool_capacity st req p hsound.2
    by_cases hqp : q.id = p.id
    · have hq_eq : q = p := pool_eq_of_id_eq st hN hq hsound.1 hqp
      subst hq_eq
      have h1 : recContrib q.id
          (⟨req.claim, req.size, q.id, q.domain⟩ : PlacementRecord) = req.size := by
        simp [recContrib]
      show q.used + poolLoad (⟨req.claim, req.size, q.id, q.domain⟩ :: st.records) q.id
        ≤ q.capacity
      have h2 : poolLoad (⟨req.claim, req.size, q.id, q.domain⟩ :: st.records) q.id =
          recContrib q.id (⟨req.claim, req.size, q.id, q.domain⟩ : PlacementRecord) +
            poolLoad st.records q.id := rfl
      unfold ledgerUsed at hcap
      rw [h2, h1]
      omega
    · have h1 : recContrib q.id
          (⟨req.claim, req.size, p.id, p.domain⟩ : PlacementRecord) = 0 := by
        simp only [recContrib]
        rw [if_neg (by simp only [beq_iff_eq]; exact fun hh => hqp hh.symm)]
      show q.used + poolLoad (⟨req.claim, req.size, p.id, p.domain⟩ :: st.records) q.id
        ≤ q.capacity
      have h2 : poolLoad (⟨req.claim, req.size, p.id, p.domain⟩ :: st.records) q.id =
          recContrib q.id (⟨req.claim, req.size, p.id, p.domain⟩ : PlacementRecord) +
            poolLoad st.records q.id := rfl
      have h3 := hI q hq
      unfold ledgerUsed at h3
      rw [h2, h1]
      omega

theorem poolLoad_map_moveRec_dest (recs : List PlacementRecord) (c : ClaimID)
    (dest : PoolID) (ddom : DomainID) :
    poolLoad (recs.map (moveRec c dest ddom)) dest ≤
      poolLoad recs dest + claimLoad recs c := by
  unfold poolLoad claimLoad
  rw [List.map_map, ← sum_map_add_split]
  exact sum_map_le_sum_map recs _ _
    (fun r _ => recContrib_moveRec_dest c dest ddom r)

theorem poolLoad_map_moveRec_other (recs : List PlacementRecord) (c : ClaimID)
    (dest : PoolID) (ddom : DomainID) (pid : PoolID) (h : pid ≠ dest) :
    poolLoad (recs.map (moveRec c dest ddom)) pid ≤ poolLoad recs pid := by
  unfold poolLoad
  rw [List.map_map]
  exact sum_map_le_sum_map recs _ _
    (fun r _ => recContrib_moveRec_other c dest ddom pid r h)

theorem capInv_applyMove (st : EngineState) (c : ClaimID) (dest : PoolID)
    (hN : PoolIdsNodup st) (hI : CapacityInv st) :
    CapacityInv (applyMove st c dest) := by
  rcases applyMove_state_cases st c dest with heq | ⟨dp, hf, hguard, heq⟩
  · rw [heq]; exact hI
  · rw [heq]
    intro q hq
    have hdp_mem := List.mem_of_find?_eq_some hf
    have hdp_id : dp.id = dest := by simpa using List.find?_some hf
    by_cases hqd : q.id = dest
    · have hq_eq : q = dp := pool_eq_of_id_eq st hN hq hdp_mem (hqd.trans hdp_id.symm)
      show q.used + poolLoad (st.records.map (moveRec c dest dp.domain)) q.id ≤ q.capacity
      rw [hqd, hq_eq]
      have hle := poolLoad_map_moveRec_dest st.records c dest dp.domain
      omega
    · show q.used + poolLoad (st.records.map (moveRec c dest dp.domain)) q.id ≤ q.capacity
      have hle := poolLoad_map_moveRec_other st.records c dest dp.domain q.id hqd
      have h3 := hI q hq
      unfold ledgerUsed at h3
      omega

theorem execOp_pools_eq (st : EngineState) (op : EngineOp) :
    (execOp st op).pools = st.pools := by
  cases op with
  | placeOp req =>
      show (place st req).2.pools = st.pools
      rcases place_state_cases st req with heq | ⟨p, _, heq⟩ <;> rw [heq]
  | applyMoveOp c dest =>
      show (applyMove st c dest).pools = st.pools
      rcases applyMove_state_cases st c dest with heq | ⟨dp, _, _, heq⟩ <;> rw [heq]

theorem capInv_execOp (st : EngineState) (op : EngineOp)
    (hN : PoolIdsNodup st) (hI : CapacityInv st) :
    CapacityInv (execOp st op) := by
  cases op with
  | placeOp req => exact capInv_place st req hN hI
  | applyMoveOp c dest => exact capInv_applyMove st c dest hN hI

theorem capInv_execOps (ops : List EngineOp) :
    ∀ st : EngineState, PoolIdsNodup st → CapacityInv st →
      CapacityInv (execOps st ops) := by
  induction ops with
  | nil => exact fun st _ hI => hI
  | cons op ops ih =>
      intro st hN hI
      have hN' : PoolIdsNodup (execOp st op) := by
        unfold PoolIdsNodup
        rw [execOp_pools_eq]
        exact hN
      exact ih (execOp st op) hN' (capInv_execOp st op hN hI)

/-- C9: after any finite sequence of Place and migration-apply operations
from a well-formed state satisfying the capacity invariant, every pool's
recorded load — the sum of declared sizes of the volumes whose
PlacementRecord references it — is at most the pool's total capacity. -/
theorem capacity_never_overcommitted (st : EngineState) (ops : List EngineOp)
    (hN : PoolIdsNodup st) (hI : CapacityInv st) :
    ∀ p ∈ (execOps st ops).pools,
      poolLoad (execOps st ops).records p.id ≤ p.capacity := by
  have h := capInv_execOps ops st hN hI
  intro p hp
  have := h p hp
  unfold ledgerUsed at this
  omega

/-- Two-pool state and an operation history (one placement, one
migration apply) exercising the capacity theorem. -/
def ledgerState : EngineState :=
  ⟨[⟨"p1", "z1", 100, 0, true, []⟩, ⟨"p2", "z1", 100, 0, true, []⟩], [], []⟩

def ledgerOps : List EngineOp :=
  [.placeOp ⟨"c1", ⟨true, []⟩, 10, none⟩, .applyMoveOp "c1" "p2"]

/-- C9 witness: the two-pool history keeps pool p2 within its capacity. -/
theorem capacity_never_overcommitted_witness :
    poolLoad (execOps ledgerState ledgerOps).records "p2" ≤ 100 :=
  capacity_never_overcommitted ledgerState ledgerOps
    (by unfold PoolIdsNodup ledgerState; decide)
    (by unfold CapacityInv ledgerState ledgerUsed; decide)
    ⟨"p2", "z1", 100, 0, true, []⟩ (by decide)

/-! ## C2 — idempotence of Place per claim identity -/

/-- C2: starting from a state with no PlacementRecord for the claim, a
successful `place` followed by a second `place` with the same claim
identity returns the same (pool, domain) pair and the same state — the
second call allocates nothing — and exactly one PlacementRecord exists for
that claim afterwards. -/
theorem place_idempotent (st : EngineState) (req : PlacementRequest)
    (pl : PoolID) (dm : DomainID) (st1 : EngineState)
    (h0 : st.records.find? (fun r => r.claim == req.claim) = none)
    (h1 : place st req = (.placed pl dm, st1)) :
    place st1 req = (.placed pl dm, st1) ∧
    (st1.records.filter (fun r => r.claim == req.claim)).length = 1 := by
  by_cases hreq : req.profile.requiresPoolPlacement = false
  · rw [place, if_pos hreq] at h1
    simp at h1
  · rw [place, if_neg hreq, h0] at h1
    cases hsel : selectPool st req with
    | none =>
        rw [hsel] at h1
        simp at h1
    | some p =>
        rw [hsel] at h1
        have hfst := congrArg Prod.fst h1
        have hsnd := congrArg Prod.snd h1
        obtain ⟨hid, hdm⟩ : p.id = pl ∧ p.domain = dm := by simpa using hfst
        simp only at hsnd
        subst hid hdm hsnd
        have hnil : st.records.filter (fun r => r.claim == req.claim) = [] :=
          List.filter_eq_nil_iff.mpr (List.find?_eq_none.mp h0)
        constructor
        · rw [place, if_neg hreq]
          simp [List.find?]
        · simp [List.filter, hnil]

/-- C2 witness: placing claim c1 twice on the one-pool state. -/
theorem place_idempotent_witness :
    place (place simpleState simpleRequest).2 simpleRequest =
      (.placed "p1" "z1", (place simpleState simpleRequest).2) ∧
    ((place simpleState simpleRequest).2.records.filter
      (fun r => r.claim == simpleRequest.claim)).length = 1 :=
  place_idempotent simpleState simpleRequest "p1" "z1"
    (place simpleState simpleRequest).2 rfl rfl

/-! ## C4 — Infeasible surfaced, atomic on failure -/

/-- C4: when no pool passes all eligibility filters and the claim has no
existing PlacementRecord, `place` returns Infeasible with the state
unchanged (no PlacementRecord is created), and the RPC surfaces the
failure as placeSuccess = false. -/
theorem place_infeasible_atomic (st : EngineState) (req : PlacementRequest)
    (hreq : req.profile.requiresPoolPlacement = true)
    (h0 : st.records.find? (fun r => r.claim == req.claim) = none)
    (helig : ∀ p ∈ st.pools, eligiblePool st req p = false) :
    place st req = (.infeasible, st) ∧
    placePersistenceVolumeClaim st req = (false, st) := by
  have hsel : selectPool st req = none := by
    unfold selectPool
    have hfil : st.pools.filter (eligiblePool st req) = [] :=
      List.filter_eq_nil_iff.mpr (fun p hp => by simp [helig p hp])
    rw [hfil]
    rfl
  have hplace : place st req = (.infeasible, st) := by
    rw [place, if_neg (by simp [hreq]), h0, hsel]
  exact ⟨hplace, by simp [placePersistenceVolumeClaim, hplace, placeSuccessOf]⟩

/-- C4 witness: the spec's z3 scenario — the only pool in zone z3 lacks
the requested free capacity, so placement is Infeasible and `z3State` is
unchanged. -/
theorem place_infeasible_atomic_witness :
    place z3State z3Request = (.infeasible, z3State) ∧
    placePersistenceVolumeClaim z3State z3Request = (false, z3State) :=
  place_infeasible_atomic z3State z3Request rfl rfl (by decide)

/-! ## C6 / C7 — domain-level plan enumeration and policy upgrade -/

/-- Setting a domain's lifecycle state makes it the state looked up for
that domain. -/
theorem domainStateOf_setDomainState (inv : Inventory) (d : DomainID) (s : DomainState) :
    domainStateOf (setDomainState inv d s).domains d = s := by
  simp [domainStateOf, setDomainState, List.lookup]

/-- An inventory with domain Z marked EvacuateAll and two volumes in Z's
pool, one of which has an alternate accessible copy. -/
def evacInv : Inventory :=
  ⟨[⟨"P1", "Z", 100, 40, true, []⟩, ⟨"Q", "Y", 100, 0, true, []⟩],
   [("Z", .markedForRemoval .evacuateAll)],
   [⟨"u1", 20, "P1", true, none⟩, ⟨"u2", 10, "P1", false, none⟩,
    ⟨"u3", 10, "Q", false, none⟩]⟩

/-- C6: a domain-level `Plan` under a stored EvacuateAll policy enumerates
exactly the volumes whose PlacementRecord places them in that domain's
pools, regardless of redundancy; the redundancy filter (volumes lacking an
alternate accessible copy) applies exactly when the stored policy is
EnsureAccessibility. -/
theorem planVolumes_evacuateAll_complete (inv : Inventory) (d : DomainID) :
    (domainStateOf inv.domains d = .markedForRemoval .evacuateAll →
      ∀ v, v ∈ planVolumesForDomain inv d ↔
        v ∈ inv.volumes ∧ (domainPools inv d).contains v.currentPool = true) ∧
    (domainStateOf inv.domains d = .markedForRemoval .ensureAccessibility →
      ∀ v, v ∈ planVolumesForDomain inv d ↔
        v ∈ inv.volumes ∧ (domainPools inv d).contains v.currentPool = true ∧
          v.hasAlternateCopy = false) := by
  constructor
  · intro h v
    simp [planVolumesForDomain, h, enumVolumes, List.mem_filter]
  · intro h v
    simp [planVolumesForDomain, h, enumVolumes, List.mem_filter, and_assoc]

/-- C6 witness: in `evacInv`, the redundant volume u1 is still enumerated
by the domain-level plan for Z. -/
theorem planVolumes_evacuateAll_complete_witness :
    (⟨"u1", 20, "P1", true, none⟩ : VolumeInfo) ∈ planVolumesForDomain evacInv "Z" :=
  ((planVolumes_evacuateAll_complete evacInv "Z").1 rfl
    ⟨"u1", 20, "P1", true, none⟩).mpr ⟨by decide, by decide⟩

/-- C7: re-marking a domain already MarkedForRemoval(EnsureAccessibility)
with EvacuateAll upgrades the stored policy to EvacuateAll, and subsequent
domain-level `Plan` calls compute the plan under EvacuateAll; re-marking a
domain already MarkedForRemoval(EvacuateAll) with EnsureAccessibility
never downgrades the stored policy. -/
theorem remark_policy_upgrade_only (inv : Inventory) (d : DomainID) :
    (domainStateOf inv.domains d = .markedForRemoval .ensureAccessibility →
      domainStateOf (markDomain inv d .evacuateAll).domains d =
        .markedForRemoval .evacuateAll ∧
      planForDomain (markDomain inv d .evacuateAll) d =
        some (computePlan (markDomain inv d .evacuateAll)
          (domainPools (markDomain inv d .evacuateAll) d) .evacuateAll)) ∧
    (domainStateOf inv.domains d = .markedForRemoval .evacuateAll →
      domainStateOf (markDomain inv d .ensureAccessibility).domains d =
        .markedForRemoval .evacuateAll) := by
  constructor
  · intro h
    have hstate : domainStateOf (markDomain inv d .evacuateAll).domains d =
        .markedForRemoval .evacuateAll := by
      rw [markDomain, h]
      exact domainStateOf_setDomainState inv d _
    exact ⟨hstate, by simp [planForDomain, hstate]⟩
  · intro h
    rw [markDomain, h]
    exact domainStateOf_setDomainState inv d _

/-- C7 witness: remark the EnsureAccessibility-marked scenario domain Z
with EvacuateAll, and remark the EvacuateAll-marked domain of `evacInv`
with EnsureAccessibility. -/
theorem remark_policy_upgrade_only_witness :
    domainStateOf (markDomain scenarioZInv "Z" .evacuateAll).domains "Z" =
      .markedForRemoval .evacuateAll ∧
    domainStateOf (markDomain evacInv "Z" .ensureAccessibility).domains "Z" =
      .markedForRemoval .evacuateAll :=
  ⟨((remark_policy_upgrade_only scenarioZInv "Z").1 rfl).1,
   (remark_policy_upgrade_only evacInv "Z").2 rfl⟩

end CsiPlacement

namespace MainProcess

/-! ## C8 — session logout before exit on SIGTERM and panic -/

/-- C8: no teardown path of the process exits before logging out the
vCenter sessions: the SIGTERM handler's trace, the deferred panic-recovery
trace, and `cleanupSessions` each perform `LogoutAllvCenterSessions`
before any `os.Exit`. -/
theorem teardown_logout_before_exit :
    (∀ sig : Signal, logoutBeforeExit (sigtermHandlerTrace sig) = true) ∧
    (∀ panicked : Bool, logoutBeforeExit (deferredRecoverTrace panicked) = true) ∧
    logoutBeforeExit cleanupSessionsTrace = true := by
  refine ⟨fun sig => ?_, fun panicked => ?_, rfl⟩
  · cases sig <;> rfl
  · cases panicked <;> rfl

/-! ## C10 — cluster-flavor error is non-fatal, empty endpoint is fatal -/

/-- C10: when `GetClusterFlavor` fails, `main` only logs the error and
still calls `SetInitParams` with the returned (zero-valued) flavor and
starts the driver, never exiting; when the CSI endpoint environment
variable is empty, `main` exits with status 1 after `SetInitParams` but
before the driver is created or run. -/
theorem bootstrap_flavor_error_nonfatal (e ep fl : String) (fr : Option String)
    (hep : ep ≠ "") :
    mainTrace ⟨false, "", some e, ep⟩ =
      [.logInfo, .logError, .setInitParams "", .logInfo,
       .installRecoverAndSignalHandler, .newDriver, .driverRun] ∧
    (∀ c : Nat, Event.exitProcess c ∉ mainTrace ⟨false, "", some e, ep⟩) ∧
    mainTrace ⟨false, fl, fr, ""⟩ =
      [.logInfo] ++
        (match fr with | some _ => [.logError] | none => []) ++
        [.setInitParams fl, .logError, .exitProcess 1] ∧
    Event.newDriver ∉ mainTrace ⟨false, fl, fr, ""⟩ ∧
    Event.driverRun ∉ mainTrace ⟨false, fl, fr, ""⟩ := by
  refine ⟨by simp [mainTrace, hep], fun c => ?_, by cases fr <;> simp [mainTrace], ?_, ?_⟩
  · simp [mainTrace, hep]
  · cases fr <;> simp [mainTrace]
  · cases fr <;> simp [mainTrace]

/-- C10 witness: a failing flavor lookup with a non-empty endpoint, and an
empty endpoint with a successful flavor lookup. -/
theorem bootstrap_flavor_error_nonfatal_witness :
    mainTrace ⟨false, "", some "flavor lookup failed", "unix:///csi.sock"⟩ =
      [.logInfo, .logError, .setInitParams "", .logInfo,
       .installRecoverAndSignalHandler, .newDriver, .driverRun] ∧
    Event.newDriver ∉ mainTrace ⟨false, "VANILLA", none, ""⟩ :=
  ⟨(bootstrap_flavor_error_nonfatal "flavor lookup failed" "unix:///csi.sock"
      "VANILLA" none (by decide)).1,
   (bootstrap_flavor_error_nonfatal "flavor lookup failed" "unix:///csi.sock"
      "VANILLA" none (by decide)).2.2.2.1⟩

end MainProcess

